import Mathlib

/-!
Verification of the slurpsearch core (src/fetch.rs and src/extract.rs).

The text extractor (src/extract.rs) is pure and is embedded directly:
an `HNode` tree stands for a parsed HTML document (the parse step,
`scraper::Html::parse_document`, is total — html5ever recovers from any
malformed input — so theorems quantify over all trees).  The scraper
crate's `ElementRef::ancestors()` (ego_tree axis iterator) yields the
chain of proper ancestors starting at the parent; here each candidate
element carries that chain explicitly, nearest ancestor first.

The fetch pipeline (src/fetch.rs) performs Playwright side effects; it is
embedded as a state-passing function over an environment that supplies
the result of every primitive browser operation (new_page, goto,
content), together with a trace of events (page creations, navigations,
close attempts) from which the resource-handling claims are stated.
-/

namespace Slurpsearch

/-! ## Whitespace and ASCII case (Rust `char::is_whitespace`, `to_ascii_lowercase`) -/

/-- Unicode `White_Space` code points, as tested by Rust's `char::is_whitespace`. -/
def rustWs (c : Char) : Bool :=
  c.toNat = 0x9 || c.toNat = 0xA || c.toNat = 0xB || c.toNat = 0xC || c.toNat = 0xD ||
  c.toNat = 0x20 || c.toNat = 0x85 || c.toNat = 0xA0 || c.toNat = 0x1680 ||
  (0x2000 ≤ c.toNat && c.toNat ≤ 0x200A) ||
  c.toNat = 0x2028 || c.toNat = 0x2029 || c.toNat = 0x202F || c.toNat = 0x205F ||
  c.toNat = 0x3000

/-- ASCII lowercasing of one character, as Rust's `char::to_ascii_lowercase`. -/
def asciiLowerChar (c : Char) : Char :=
  if 'A' ≤ c ∧ c ≤ 'Z' then Char.ofNat (c.toNat + 32) else c

/-- ASCII lowercasing of a string, as Rust's `str::to_ascii_lowercase`. -/
def asciiLower (s : String) : String :=
  ⟨s.data.map asciiLowerChar⟩

/-- Substring test, as Rust's `str::contains` with a string pattern. -/
def strContains (hay pat : String) : Bool :=
  decide (pat.data <:+: hay.data)

/-- Case-insensitive ASCII equality, as Rust's `str::eq_ignore_ascii_case`. -/
def eqIgnoreAsciiCase (a b : String) : Bool :=
  asciiLower a == asciiLower b

/-! ## normalize_text (src/extract.rs lines 133-152) -/

/-- The character stream of the chunk iterator fed to `normalize_text`
(the Rust code loops over chunks and then over their chars). -/
def chunkChars (chunks : List String) : List Char :=
  chunks.foldr (fun s acc => s.data ++ acc) []

/-- The whitespace-collapsing loop body of `normalize_text`: the Bool
argument is the `last_was_space` flag. -/
def collapseChars : List Char → Bool → List Char
  | [], _ => []
  | c :: cs, lastWasSpace =>
    if rustWs c then
      if lastWasSpace then collapseChars cs true
      else ' ' :: collapseChars cs true
    else c :: collapseChars cs false

/-- Rust `str::trim`: drop whitespace from both ends. -/
def rustTrim (l : List Char) : List Char :=
  ((l.dropWhile rustWs).reverse.dropWhile rustWs).reverse

/-- Embedding of `normalize_text` (src/extract.rs): collapse whitespace
runs to single spaces while copying characters, then trim. -/
def normalize_text (chunks : List String) : String :=
  ⟨rustTrim (collapseChars (chunkChars chunks) false)⟩

/-! ## The parsed-document model and the extractor (src/extract.rs) -/

/-- A node of a parsed HTML document: an element with tag name,
attributes and children, or a text node. -/
inductive HNode where
  | elem (tag : String) (attrs : List (String × String)) (children : List HNode)
  | text (s : String)

/-- Tag name and attributes of one enclosing element, as seen through
`ElementRef::wrap` on an ancestor node. -/
structure ElemInfo where
  tag : String
  attrs : List (String × String)

/-- Attribute lookup, as scraper's `el.value().attr(name)` (first match). -/
def getAttr (e : ElemInfo) (name : String) : Option String :=
  (e.attrs.find? (fun p => p.1 == name)).map Prod.snd

/-- Embedding of `is_block_tag` (src/extract.rs lines 58-72). -/
def is_block_tag (tag : String) : Bool :=
  tag == "p" || tag == "li" || tag == "blockquote" || tag == "pre" || tag == "code" ||
  tag == "h1" || tag == "h2" || tag == "h3" || tag == "h4" || tag == "h5" || tag == "h6"

/-- The fixed keyword set `BAD` of `looks_like_chrome` (src/extract.rs lines 116-129). -/
def BAD : List String :=
  ["nav", "navbar", "menu", "footer", "header", "sidebar", "breadcrumb",
   "breadcrumbs", "cookie", "consent", "subscribe", "newsletter"]

/-- Embedding of `looks_like_chrome` (src/extract.rs lines 112-131). -/
def looks_like_chrome (s : String) : Bool :=
  let t := asciiLower s
  BAD.any (fun k => strContains t k)

/-- The per-ancestor test of `is_boilerplate`'s loop body
(src/extract.rs lines 76-107): landmark tag, navigation role,
aria-hidden, or chrome-looking id/class. -/
def elemIsChrome (el : ElemInfo) : Bool :=
  (el.tag == "nav" || el.tag == "header" || el.tag == "footer" || el.tag == "aside")
  || (match getAttr el "role" with
      | some r => eqIgnoreAsciiCase r "navigation"
      | none => false)
  || (match getAttr el "aria-hidden" with
      | some v => eqIgnoreAsciiCase v "true"
      | none => false)
  || (match getAttr el "id" with
      | some i => looks_like_chrome i
      | none => false)
  || (match getAttr el "class" with
      | some c => looks_like_chrome c
      | none => false)

/-- Embedding of `is_boilerplate` (src/extract.rs lines 74-110): the
argument is the candidate's proper ancestor chain, nearest first, as
produced by `node.ancestors()` filtered through `ElementRef::wrap`. -/
def is_boilerplate (ancs : List ElemInfo) : Bool :=
  ancs.any elemIsChrome

/-- Embedding of `is_nested_block` (src/extract.rs lines 45-56): the
source iterates `node.ancestors().skip(1)`, so the nearest ancestor
(the parent) is skipped and only the remaining chain is tested. -/
def is_nested_block (ancs : List ElemInfo) : Bool :=
  (ancs.drop 1).any (fun el => is_block_tag el.tag)

mutual

/-- Text chunks of a subtree in document order, as `ElementRef::text()`. -/
def textChunks : HNode → List String
  | .text s => [s]
  | .elem _ _ cs => textChunksList cs

def textChunksList : List HNode → List String
  | [] => []
  | n :: ns => textChunks n ++ textChunksList ns

end

mutual

/-- The block-tag candidates selected by `document.select(&block_sel)` in
document (preorder) order, each paired with its proper ancestor element
chain, nearest first. -/
def candidatesOf (ancs : List ElemInfo) : HNode → List (List ElemInfo × HNode)
  | .text _ => []
  | .elem t a cs =>
    (if is_block_tag t then [(ancs, HNode.elem t a cs)] else [])
      ++ candidatesOfList (⟨t, a⟩ :: ancs) cs

def candidatesOfList (ancs : List ElemInfo) : List HNode → List (List ElemInfo × HNode)
  | [] => []
  | n :: ns => candidatesOf ancs n ++ candidatesOfList ancs ns

end

/-- Candidates of a parsed document, given as the root's children. -/
def candidates (doc : List HNode) : List (List ElemInfo × HNode) :=
  candidatesOfList [] doc

/-- Output unit of the extractor (src/rag.rs `WebDoc`); the URL is kept
as its string form. -/
structure WebDoc where
  url : String
  text : String
deriving DecidableEq

/-- The candidate loop of `extract_text` (src/extract.rs lines 18-40):
filter boilerplate, filter nested blocks, normalize, drop empties,
dedup via the `seen` set (here a list with `contains`). -/
def extractLoop (url : String) : List (List ElemInfo × HNode) → List String → List WebDoc
  | [], _ => []
  | (ancs, n) :: rest, seen =>
    if is_boilerplate ancs then extractLoop url rest seen
    else if is_nested_block ancs then extractLoop url rest seen
    else
      let t := normalize_text (textChunks n)
      if t == "" then extractLoop url rest seen
      else if seen.contains t then extractLoop url rest seen
      else ⟨url, t⟩ :: extractLoop url rest (t :: seen)

/-- Embedding of `extract_text` (src/extract.rs lines 8-43).  The
document argument is the already-parsed tree (`Html::parse_document` is
total); the `Except` mirrors the Rust `Result` return type, and the body
has no error exit, exactly as in the source. -/
def extract_text (url : String) (doc : List HNode) : Except String (List WebDoc) :=
  .ok (extractLoop url (candidates doc) [])

/-- Claim C10: for every url and every parsed document (hence for every
html input, malformed or empty, since the parser totally recovers),
`extract_text` returns `Ok` — its error path is unreachable. -/
theorem extract_text_never_errors (url : String) (doc : List HNode) :
    ∃ ds, extract_text url doc = .ok ds :=
  ⟨extractLoop url (candidates doc) [], rfl⟩

/-- The parsed form of `<pre><code>example</code></pre>`
(html5ever wraps the fragment in html/head/body). -/
def preCodeDoc : List HNode :=
  [HNode.elem "html" []
    [HNode.elem "head" [] [],
     HNode.elem "body" []
       [HNode.elem "pre" [] [HNode.elem "code" [] [HNode.text "example"]]]]]

/-- Claim C9: on `<pre><code>example</code></pre>`, `extract_text`
yields exactly one WebDoc with text "example"; the inner code block does
not produce a second one. -/
theorem pre_code_yields_single_webdoc :
    extract_text "http://example.org/" preCodeDoc =
      .ok [⟨"http://example.org/", "example"⟩] := by
  rfl

/-! ## Claim C6: characterization of the boilerplate filter -/

/-- Spec-side reading of the boilerplate condition for one ancestor
element: a navigation/header/footer/complementary landmark tag, a
navigation role, an aria-hidden marking, or an id/class whose lowercase
form contains one of the fixed keywords. -/
def ChromeAncestorSpec (el : ElemInfo) : Prop :=
  el.tag = "nav" ∨ el.tag = "header" ∨ el.tag = "footer" ∨ el.tag = "aside"
  ∨ (∃ r, getAttr el "role" = some r ∧ asciiLower r = "navigation")
  ∨ (∃ v, getAttr el "aria-hidden" = some v ∧ asciiLower v = "true")
  ∨ (∃ s, (getAttr el "id" = some s ∨ getAttr el "class" = some s)
       ∧ ∃ k ∈ BAD, k.data <:+: (asciiLower s).data)

theorem strContains_iff (hay pat : String) :
    strContains hay pat = true ↔ pat.data <:+: hay.data :=
  decide_eq_true_iff

theorem asciiLower_navigation : asciiLower "navigation" = "navigation" := rfl

theorem asciiLower_true_lit : asciiLower "true" = "true" := rfl

theorem exists_attr_pair (a b : String) (P : String → Prop) :
    (∃ s, (a = s ∨ b = s) ∧ P s) ↔ P a ∨ P b := by
  constructor
  · rintro ⟨s, h, hp⟩
    rcases h with rfl | rfl
    · exact Or.inl hp
    · exact Or.inr hp
  · rintro (h | h)
    · exact ⟨a, Or.inl rfl, h⟩
    · exact ⟨b, Or.inr rfl, h⟩

theorem elemIsChrome_iff (el : ElemInfo) :
    elemIsChrome el = true ↔ ChromeAncestorSpec el := by
  unfold elemIsChrome ChromeAncestorSpec eqIgnoreAsciiCase looks_like_chrome
  cases hrole : getAttr el "role" <;> cases haria : getAttr el "aria-hidden" <;>
    cases hid : getAttr el "id" <;> cases hcls : getAttr el "class" <;>
      simp [hrole, haria, hid, hcls, strContains_iff, List.any_eq_true, beq_iff_eq,
        asciiLower_navigation, asciiLower_true_lit, or_assoc, Bool.or_eq_true,
        exists_attr_pair]

/-- The parsed form of a page with a `<nav>` block, a `<footer>` block
and a single `<p>` of real content. -/
def navFooterDoc : List HNode :=
  [HNode.elem "html" []
    [HNode.elem "head" [] [],
     HNode.elem "body" []
       [HNode.elem "nav" []
          [HNode.elem "li" [] [HNode.text "Home"],
           HNode.elem "li" [] [HNode.text "About"]],
        HNode.elem "p" [] [HNode.text "Real content."],
        HNode.elem "footer" []
          [HNode.elem "p" [] [HNode.text "Copyright 2024"]]]]]

/-- Claim C6: a candidate is discarded as boilerplate exactly when some
element on its ancestor chain is a nav/header/footer/aside landmark,
has role navigation, is marked aria-hidden, or has an id/class whose
lowercase form contains one of the fixed keywords; and on HTML with a
nav block and a footer block plus one paragraph of real content,
extraction yields exactly one WebDoc holding only the paragraph text. -/
theorem is_boilerplate_ancestor_characterization :
    (∀ ancs : List ElemInfo, is_boilerplate ancs = true ↔ ∃ el ∈ ancs, ChromeAncestorSpec el)
    ∧ extract_text "http://example.com/" navFooterDoc =
        .ok [⟨"http://example.com/", "Real content."⟩] := by
  constructor
  · intro ancs
    unfold is_boilerplate
    rw [List.any_eq_true]
    exact exists_congr fun el => and_congr_right fun _ => elemIsChrome_iff el
  · rfl

/-! ## Claim C7: no empty blocks, no duplicates, first occurrence wins -/

/-- Normalized text of candidates that survive the boilerplate, nested
and emptiness filters, in document order (before deduplication). -/
def survTexts : List (List ElemInfo × HNode) → List String
  | [] => []
  | (ancs, n) :: rest =>
    if is_boilerplate ancs then survTexts rest
    else if is_nested_block ancs then survTexts rest
    else
      let t := normalize_text (textChunks n)
      if t == "" then survTexts rest
      else t :: survTexts rest

/-- Surviving candidate texts of a document. -/
def survivorTexts (doc : List HNode) : List String :=
  survTexts (candidates doc)

/-- First-occurrence-wins deduplication: keep the first copy of each
text, drop later identical ones. -/
def dedupFirst : List String → List String
  | [] => []
  | t :: ts => t :: dedupFirst (ts.filter (fun s => !(s == t)))
termination_by l => l.length
decreasing_by
  simp only [List.length_cons]
  exact Nat.lt_succ_of_le (List.length_filter_le _ _)

/-- First-occurrence-wins deduplication relative to an already-seen set. -/
def dedupAux : List String → List String → List String
  | [], _ => []
  | t :: ts, seen =>
    if seen.contains t then dedupAux ts seen else t :: dedupAux ts (t :: seen)

theorem extractLoop_map_text (url : String) :
    ∀ cands seen,
      (extractLoop url cands seen).map WebDoc.text = dedupAux (survTexts cands) seen := by
  intro cands
  induction cands with
  | nil => intro seen; rfl
  | cons p rest ih =>
    intro seen
    obtain ⟨ancs, n⟩ := p
    simp only [extractLoop, survTexts]
    by_cases hb : is_boilerplate ancs = true
    · rw [if_pos hb, if_pos hb]; exact ih seen
    · rw [if_neg hb, if_neg hb]
      by_cases hn : is_nested_block ancs = true
      · rw [if_pos hn, if_pos hn]; exact ih seen
      · rw [if_neg hn, if_neg hn]
        by_cases he : (normalize_text (textChunks n) == "") = true
        · rw [if_pos he, if_pos he]; exact ih seen
        · rw [if_neg he, if_neg he, dedupAux]
          by_cases hs : seen.contains (normalize_text (textChunks n)) = true
          · rw [if_pos hs, if_pos hs]; exact ih seen
          · rw [if_neg hs, if_neg hs, List.map_cons]
            exact congrArg _ (ih _)

theorem extractLoop_mem (url : String) :
    ∀ cands seen d, d ∈ extractLoop url cands seen →
      d.url = url ∧ d.text ≠ "" ∧ d.text ∉ seen := by
  intro cands
  induction cands with
  | nil => intro seen d hd; simp [extractLoop] at hd
  | cons p rest ih =>
    intro seen d hd
    obtain ⟨ancs, n⟩ := p
    by_cases hb : is_boilerplate ancs = true
    · rw [extractLoop, if_pos hb] at hd; exact ih seen d hd
    · rw [extractLoop, if_neg hb] at hd
      by_cases hn : is_nested_block ancs = true
      · rw [if_pos hn] at hd; exact ih seen d hd
      · rw [if_neg hn] at hd
        by_cases he : (normalize_text (textChunks n) == "") = true
        · rw [if_pos he] at hd; exact ih seen d hd
        · rw [if_neg he] at hd
          by_cases hs : seen.contains (normalize_text (textChunks n)) = true
          · rw [if_pos hs] at hd; exact ih seen d hd
          · rw [if_neg hs] at hd
            rcases List.mem_cons.mp hd with h | h
            · subst h
              refine ⟨rfl, ?_, ?_⟩
              · simpa using he
              · intro hmem
                exact hs (List.elem_iff.mpr hmem)
            · obtain ⟨h1, h2, h3⟩ := ih _ d h
              exact ⟨h1, h2, fun hmem => h3 (List.mem_cons_of_mem _ hmem)⟩

theorem extractLoop_pairwise (url : String) :
    ∀ cands seen,
      (extractLoop url cands seen).Pairwise (fun a b => a.text ≠ b.text) := by
  intro cands
  induction cands with
  | nil => intro seen; simp [extractLoop]
  | cons p rest ih =>
    intro seen
    obtain ⟨ancs, n⟩ := p
    by_cases hb : is_boilerplate ancs = true
    · rw [extractLoop, if_pos hb]; exact ih seen
    · rw [extractLoop, if_neg hb]
      by_cases hn : is_nested_block ancs = true
      · rw [if_pos hn]; exact ih seen
      · rw [if_neg hn]
        by_cases he : (normalize_text (textChunks n) == "") = true
        · rw [if_pos he]; exact ih seen
        · rw [if_neg he]
          by_cases hs : seen.contains (normalize_text (textChunks n)) = true
          · rw [if_pos hs]; exact ih seen
          · rw [if_neg hs]
            refine List.Pairwise.cons ?_ (ih _)
            intro d hd heq
            obtain ⟨-, -, h3⟩ := extractLoop_mem url rest _ d hd
            exact h3 (by simp [← heq])

theorem dedupFirst_cons (t : String) (ts : List String) :
    dedupFirst (t :: ts) = t :: dedupFirst (ts.filter (fun s => !(s == t))) := by
  rw [dedupFirst]

theorem dedupAux_eq_dedupFirst :
    ∀ ts seen, dedupAux ts seen = dedupFirst (ts.filter (fun s => !seen.contains s)) := by
  intro ts
  induction ts with
  | nil => intro seen; simp [dedupAux, dedupFirst]
  | cons t ts ih =>
    intro seen
    by_cases hc : seen.contains t = true
    · have hneg : ¬((!seen.contains t) = true) := by rw [hc]; simp
      rw [dedupAux, if_pos hc, ih seen, List.filter_cons, if_neg hneg]
    · have hcf : seen.contains t = false := Bool.eq_false_iff.mpr hc
      have hfc : (!seen.contains t) = true := by rw [hcf]; rfl
      have hfilters :
          ts.filter (fun s => !(t :: seen).contains s)
            = (ts.filter (fun s => !seen.contains s)).filter (fun s => !(s == t)) := by
        rw [List.filter_filter]
        refine List.filter_congr ?_
        intro s hs
        simp [List.contains_cons, Bool.not_or, Bool.and_comm, Bool.beq_eq_decide_eq]
      rw [dedupAux, if_neg hc, ih (t :: seen), hfilters, List.filter_cons, if_pos hfc,
        dedupFirst_cons]

/-- Claim C7: every extracted WebDoc carries the input url and nonempty
text, no two extracted WebDocs share the same text, and the emitted
texts are exactly the surviving candidate texts deduplicated with the
first occurrence (in document order) winning. -/
theorem extract_text_nonempty_unique_first_wins (url : String) (doc : List HNode) :
    ∃ ds, extract_text url doc = .ok ds
      ∧ (∀ d ∈ ds, d.url = url ∧ d.text ≠ "")
      ∧ ds.Pairwise (fun a b => a.text ≠ b.text)
      ∧ ds.map WebDoc.text = dedupFirst (survivorTexts doc) := by
  refine ⟨extractLoop url (candidates doc) [], rfl, ?_, ?_, ?_⟩
  · intro d hd
    obtain ⟨h1, h2, -⟩ := extractLoop_mem url (candidates doc) [] d hd
    exact ⟨h1, h2⟩
  · exact extractLoop_pairwise url (candidates doc) []
  · rw [extractLoop_map_text url (candidates doc) [], dedupAux_eq_dedupFirst]
    simp [survivorTexts]

/-! ## Claim C8: whitespace normalization -/

/-- Spec-side word splitter: the maximal runs of non-whitespace
characters of the input, in order. -/
def wordsOf : List Char → List (List Char)
  | [] => []
  | c :: cs =>
    if rustWs c then wordsOf cs
    else (c :: cs.takeWhile (fun d => !rustWs d)) :: wordsOf (cs.dropWhile (fun d => !rustWs d))
termination_by l => l.length
decreasing_by
  · simp only [List.length_cons]
    exact Nat.lt_succ_of_le (Nat.le_refl _)
  · simp only [List.length_cons]
    exact Nat.lt_succ_of_le ((List.dropWhile_sublist _).length_le)

/-- Spec-side joining of words with single spaces. -/
def joinWords : List (List Char) → List Char
  | [] => []
  | [w] => w
  | w :: rest => w ++ ' ' :: joinWords rest

/-- Whether a list ends in a whitespace character. -/
def endsWs : List Char → Bool
  | [] => false
  | [c] => rustWs c
  | _ :: cs => endsWs cs

/-- The single trailing space the collapse loop leaves behind a final
whitespace run (before trimming), when there is at least one word. -/
def trailSp (l : List Char) : List Char :=
  if endsWs l && !(wordsOf l).isEmpty then [' '] else []

/-- The single leading space the collapse loop emits for a leading
whitespace run when the flag starts false (before trimming). -/
def leadSp : List Char → List Char
  | [] => []
  | c :: _ => if rustWs c then [' '] else []

theorem leadSp_cons (c : Char) (cs : List Char) :
    leadSp (c :: cs) = if rustWs c then [' '] else [] := rfl

set_option maxHeartbeats 2000000 in
theorem wordsOf_nil : wordsOf [] = [] := by
  rw [wordsOf]

theorem wordsOf_cons_ws (c : Char) (cs : List Char) (h : rustWs c = true) :
    wordsOf (c :: cs) = wordsOf cs := by
  rw [wordsOf, if_pos h]

theorem wordsOf_cons_nonws (c : Char) (cs : List Char) (h : rustWs c = false) :
    wordsOf (c :: cs) =
      (c :: cs.takeWhile (fun d => !rustWs d)) :: wordsOf (cs.dropWhile (fun d => !rustWs d)) := by
  rw [wordsOf, if_neg (by rw [h]; simp)]

theorem joinWords_cons_ne (w : List Char) (rest : List (List Char)) (h : rest ≠ []) :
    joinWords (w :: rest) = w ++ ' ' :: joinWords rest := by
  cases rest with
  | nil => exact absurd rfl h
  | cons x xs => rfl

theorem endsWs_cons (a : Char) (l : List Char) (h : l ≠ []) :
    endsWs (a :: l) = endsWs l := by
  cases l with
  | nil => exact absurd rfl h
  | cons b t => rfl

theorem endsWs_append (l r : List Char) (h : r ≠ []) :
    endsWs (l ++ r) = endsWs r := by
  induction l with
  | nil => rfl
  | cons a l ih =>
    rw [List.cons_append, endsWs_cons a (l ++ r) (List.append_ne_nil_of_right_ne_nil l h), ih]

theorem endsWs_all_ws (r : List Char) (hne : r ≠ []) (h : ∀ c ∈ r, rustWs c = true) :
    endsWs r = true := by
  induction r with
  | nil => exact absurd rfl hne
  | cons c cs ih =>
    cases cs with
    | nil => exact h c (by simp)
    | cons b t =>
      rw [endsWs_cons c (b :: t) (by simp)]
      exact ih (by simp) (fun d hd => h d (List.mem_cons_of_mem _ hd))

theorem endsWs_all_nonws (r : List Char) (h : ∀ c ∈ r, rustWs c = false) :
    endsWs r = false := by
  induction r with
  | nil => rfl
  | cons c cs ih =>
    cases cs with
    | nil => exact h c (by simp)
    | cons b t =>
      rw [endsWs_cons c (b :: t) (by simp)]
      exact ih (fun d hd => h d (List.mem_cons_of_mem _ hd))

theorem wordsOf_eq_nil_all_ws : ∀ (n : Nat) (l : List Char), l.length ≤ n →
    wordsOf l = [] → ∀ c ∈ l, rustWs c = true := by
  intro n
  induction n with
  | zero =>
    intro l hl
    rw [List.eq_nil_of_length_eq_zero (Nat.le_zero.mp hl)]
    intro _ c hc
    simp at hc
  | succ n ih =>
    intro l hl hw c hc
    cases l with
    | nil => simp at hc
    | cons a as =>
      by_cases ha : rustWs a = true
      · rw [wordsOf_cons_ws a as ha] at hw
        rcases List.mem_cons.mp hc with rfl | hc
        · exact ha
        · exact ih as (Nat.le_of_succ_le_succ hl) hw c hc
      · rw [wordsOf_cons_nonws a as (Bool.eq_false_iff.mpr ha)] at hw
        simp at hw

theorem collapse_nonws_append : ∀ (w r : List Char), (∀ c ∈ w, rustWs c = false) →
    collapseChars (w ++ r) false = w ++ collapseChars r false := by
  intro w
  induction w with
  | nil => intro r _; rfl
  | cons c cs ih =>
    intro r hw
    have hc : rustWs c = false := hw c (by simp)
    simp only [List.cons_append, collapseChars, hc, Bool.false_eq_true, if_false,
      List.append_eq]
    rw [ih r (fun d hd => hw d (List.mem_cons_of_mem _ hd))]

/-- The collapse loop, characterized: with the flag initially set it
produces the single-space join of the words, plus one trailing space
when the input ends in whitespace; starting with the flag clear adds
one leading space when the input starts with whitespace. -/
theorem collapse_characterization : ∀ (n : Nat) (l : List Char), l.length ≤ n →
    collapseChars l true = joinWords (wordsOf l) ++ trailSp l
    ∧ collapseChars l false = leadSp l ++ (joinWords (wordsOf l) ++ trailSp l) := by
  intro n
  induction n with
  | zero =>
    intro l hl
    rw [List.eq_nil_of_length_eq_zero (Nat.le_zero.mp hl)]
    constructor <;> simp [collapseChars, wordsOf_nil, joinWords, trailSp, endsWs, leadSp]
  | succ n ih =>
    intro l hl
    cases l with
    | nil =>
      constructor <;> simp [collapseChars, wordsOf_nil, joinWords, trailSp, endsWs, leadSp]
    | cons c cs =>
      have hcs : cs.length ≤ n := Nat.le_of_succ_le_succ hl
      by_cases hc : rustWs c = true
      · -- whitespace head: skip (flag set) or emit one space (flag clear)
        have hT : collapseChars (c :: cs) true = collapseChars cs true := by
          simp [collapseChars, hc]
        have hF : collapseChars (c :: cs) false = ' ' :: collapseChars cs true := by
          simp [collapseChars, hc]
        have hwords : wordsOf (c :: cs) = wordsOf cs := wordsOf_cons_ws c cs hc
        by_cases hcs0 : cs = []
        · subst hcs0
          constructor <;>
            simp [hT, hF, hwords, wordsOf_nil, joinWords, trailSp, endsWs, leadSp, hc,
              collapseChars]
        · have htr : trailSp (c :: cs) = trailSp cs := by
            unfold trailSp
            rw [endsWs_cons c cs hcs0, hwords]
          obtain ⟨ih1, _⟩ := ih cs hcs
          have hlead : leadSp (c :: cs) = [' '] := by
            rw [leadSp_cons, if_pos hc]
          constructor
          · rw [hT, ih1, hwords, htr]
          · rw [hF, ih1, hwords, htr, hlead]
            rfl
      · -- non-whitespace head: the head starts a word
        have hcf : rustWs c = false := Bool.eq_false_iff.mpr hc
        have hT : collapseChars (c :: cs) true = c :: collapseChars cs false := by
          simp [collapseChars, hcf]
        have hF : collapseChars (c :: cs) false = c :: collapseChars cs false := by
          simp [collapseChars, hcf]
        have hlead : leadSp (c :: cs) = [] := by
          rw [leadSp_cons, if_neg (by rw [hcf]; simp)]
        have htw : ∀ d ∈ cs.takeWhile (fun d => !rustWs d), rustWs d = false := by
          intro d hd
          have := List.mem_takeWhile_imp hd
          simpa using this
        have hsplitcs : collapseChars cs false
            = cs.takeWhile (fun d => !rustWs d)
              ++ collapseChars (cs.dropWhile (fun d => !rustWs d)) false := by
          conv_lhs => rw [← List.takeWhile_append_dropWhile (fun d => !rustWs d) cs]
          exact collapse_nonws_append _ _ htw
        have hwords := wordsOf_cons_nonws c cs hcf
        cases hdw : cs.dropWhile (fun d => !rustWs d) with
        | nil =>
          -- the whole tail is one word: no whitespace at all
          have hallcs : ∀ d ∈ cs, rustWs d = false := by
            intro d hd
            have := (List.dropWhile_eq_nil_iff).mp hdw d hd
            simpa using this
          have htake : cs.takeWhile (fun d => !rustWs d) = cs := by
            rw [List.takeWhile_eq_self_iff.mpr]
            intro d hd
            simp [hallcs d hd]
          have hends : endsWs (c :: cs) = false :=
            endsWs_all_nonws _ (by
              intro d hd
              rcases List.mem_cons.mp hd with rfl | hd
              · exact hcf
              · exact hallcs d hd)
          have htr : trailSp (c :: cs) = [] := by
            unfold trailSp
            rw [hends]
            rfl
          have hjoin : joinWords (wordsOf (c :: cs)) = c :: cs := by
            rw [hwords, hdw, wordsOf_nil, htake]
            rfl
          have hcoll : collapseChars (c :: cs) true = c :: cs := by
            rw [hT, hsplitcs, hdw, htake]
            simp [collapseChars]
          constructor
          · rw [hcoll, hjoin, htr, List.append_nil]
          · rw [hF, ← hT, hcoll, hjoin, htr, hlead, List.append_nil, List.nil_append]
        | cons d r =>
          -- the first word ends at d, a whitespace character
          have hd : rustWs d = true := by
            have := List.head?_dropWhile_not (fun d => !rustWs d) cs
            rw [hdw] at this
            simp only [List.head?_cons] at this
            simpa using this
          have hr : r.length ≤ n := by
            have h1 : (cs.dropWhile (fun d => !rustWs d)).length ≤ cs.length :=
              (List.dropWhile_sublist _).length_le
            rw [hdw] at h1
            simp only [List.length_cons] at h1
            omega
          obtain ⟨ihr, _⟩ := ih r hr
          have hcollr : collapseChars (cs.dropWhile (fun d => !rustWs d)) false
              = ' ' :: collapseChars r true := by
            rw [hdw]
            simp [collapseChars, hd]
          have hwr : wordsOf (cs.dropWhile (fun d => !rustWs d)) = wordsOf r := by
            rw [hdw, wordsOf_cons_ws d r hd]
          have hshape : c :: cs
              = (c :: cs.takeWhile (fun d => !rustWs d)) ++ (d :: r) := by
            rw [List.cons_append]
            congr 1
            rw [← hdw, List.takeWhile_append_dropWhile]
          have hT2 : collapseChars (c :: cs) true
              = (c :: cs.takeWhile (fun d => !rustWs d)) ++ ' ' :: collapseChars r true := by
            rw [hT, hsplitcs, hcollr]
            rfl
          by_cases hwr0 : wordsOf r = []
          · -- everything after the first word is whitespace
            have hallr : ∀ x ∈ r, rustWs x = true :=
              wordsOf_eq_nil_all_ws r.length r (Nat.le_refl _) hwr0
            have hcollr2 : collapseChars r true = [] := by
              rw [ihr, hwr0]
              unfold trailSp
              rw [hwr0]
              simp [joinWords]
            have hends : endsWs (c :: cs) = true := by
              rw [hshape, endsWs_append _ _ (by simp)]
              exact endsWs_all_ws (d :: r) (by simp) (by
                intro x hx
                rcases List.mem_cons.mp hx with rfl | hx
                · exact hd
                · exact hallr x hx)
            have hjoin : joinWords (wordsOf (c :: cs))
                = c :: cs.takeWhile (fun d => !rustWs d) := by
              rw [hwords, hwr, hwr0]
              rfl
            have htr : trailSp (c :: cs) = [' '] := by
              unfold trailSp
              rw [hends, hwords]
              rfl
            constructor
            · rw [hT2, hcollr2, hjoin, htr]
            · rw [hF, ← hT, hT2, hcollr2, hjoin, htr, hlead, List.nil_append]
          · -- there is a further word after the separator
            have hrne : r ≠ [] := by
              intro h0
              rw [h0, wordsOf_nil] at hwr0
              exact hwr0 rfl
            have hends : endsWs (c :: cs) = endsWs r := by
              rw [hshape, endsWs_append _ _ (by simp), endsWs_cons d r hrne]
            have hwne : wordsOf (c :: cs) ≠ [] := by
              rw [hwords]
              simp
            have hjoin : joinWords (wordsOf (c :: cs))
                = (c :: cs.takeWhile (fun d => !rustWs d)) ++ ' ' :: joinWords (wordsOf r) := by
              rw [hwords, hwr]
              exact joinWords_cons_ne _ _ hwr0
            have htr : trailSp (c :: cs) = trailSp r := by
              unfold trailSp
              rw [hends, hwords, hwr]
              simp only [List.isEmpty_cons]
              congr 1
              cases hwor : wordsOf r with
              | nil => exact absurd hwor hwr0
              | cons a b => simp
            constructor
            · rw [hT2, ihr, hjoin, htr]
              simp
            · rw [hF, ← hT, hT2, ihr, hjoin, htr, hlead, List.nil_append]
              simp

theorem rustWs_space : rustWs ' ' = true := by decide

theorem wordsOf_sound : ∀ (n : Nat) (l : List Char), l.length ≤ n →
    ∀ w ∈ wordsOf l, w ≠ [] ∧ ∀ c ∈ w, rustWs c = false := by
  intro n
  induction n with
  | zero =>
    intro l hl
    rw [List.eq_nil_of_length_eq_zero (Nat.le_zero.mp hl), wordsOf_nil]
    intro w hw
    simp at hw
  | succ n ih =>
    intro l hl w hw
    cases l with
    | nil =>
      rw [wordsOf_nil] at hw
      simp at hw
    | cons c cs =>
      have hcs : cs.length ≤ n := Nat.le_of_succ_le_succ hl
      by_cases hc : rustWs c = true
      · rw [wordsOf_cons_ws c cs hc] at hw
        exact ih cs hcs w hw
      · rw [wordsOf_cons_nonws c cs (Bool.eq_false_iff.mpr hc)] at hw
        rcases List.mem_cons.mp hw with rfl | hw
        · refine ⟨by simp, ?_⟩
          intro d hd
          rcases List.mem_cons.mp hd with rfl | hd
          · exact Bool.eq_false_iff.mpr hc
          · have := List.mem_takeWhile_imp hd
            simpa using this
        · exact ih (cs.dropWhile (fun d => !rustWs d))
            (Nat.le_trans ((List.dropWhile_sublist _).length_le) hcs) w hw

theorem joinWords_head_nonws (W : List (List Char))
    (hW : W ≠ []) (hs : ∀ w ∈ W, w ≠ [] ∧ ∀ c ∈ w, rustWs c = false) :
    ∃ h t, joinWords W = h :: t ∧ rustWs h = false := by
  cases W with
  | nil => exact absurd rfl hW
  | cons w rest =>
    obtain ⟨hne, hnws⟩ := hs w (by simp)
    cases w with
    | nil => exact absurd rfl hne
    | cons a tw =>
      have ha : rustWs a = false := hnws a (by simp)
      cases rest with
      | nil => exact ⟨a, tw, rfl, ha⟩
      | cons x xs =>
        refine ⟨a, tw ++ ' ' :: joinWords (x :: xs), ?_, ha⟩
        rw [joinWords_cons_ne _ _ (by simp), List.cons_append]

theorem joinWords_reverse_head_nonws : ∀ (W : List (List Char)),
    W ≠ [] → (∀ w ∈ W, w ≠ [] ∧ ∀ c ∈ w, rustWs c = false) →
    ∃ h t, (joinWords W).reverse = h :: t ∧ rustWs h = false := by
  intro W
  induction W with
  | nil => intro hW _; exact absurd rfl hW
  | cons w rest ih =>
    intro _ hs
    cases rest with
    | nil =>
      obtain ⟨hne, hnws⟩ := hs w (by simp)
      have : w.reverse ≠ [] := by
        intro h0
        exact hne (by simpa using congrArg List.reverse h0)
      cases hrev : w.reverse with
      | nil => exact absurd hrev this
      | cons h t =>
        refine ⟨h, t, by rw [joinWords]; exact hrev, ?_⟩
        have : h ∈ w := by
          have : h ∈ w.reverse := by rw [hrev]; simp
          simpa using this
        exact hnws h this
    | cons x xs =>
      obtain ⟨h, t, hrev, hh⟩ := ih (by simp)
        (fun v hv => hs v (List.mem_cons_of_mem _ hv))
      refine ⟨h, t ++ [' '] ++ w.reverse, ?_, hh⟩
      rw [joinWords_cons_ne _ _ (by simp)]
      rw [List.reverse_append, List.reverse_cons, hrev]
      simp

theorem trailSp_elem (l : List Char) : trailSp l = [] ∨ trailSp l = [' '] := by
  unfold trailSp
  by_cases h : (endsWs l && !(wordsOf l).isEmpty) = true
  · right; rw [if_pos h]
  · left; rw [if_neg h]

/-- Trimming the collapse output strips exactly the boundary pads and
leaves the single-space join of the words. -/
theorem rustTrim_pads (l : List Char) :
    rustTrim (leadSp l ++ (joinWords (wordsOf l) ++ trailSp l)) = joinWords (wordsOf l) := by
  by_cases hW : wordsOf l = []
  · have htr : trailSp l = [] := by
      unfold trailSp
      rw [hW]
      simp
    simp only [hW, htr, joinWords, List.append_nil]
    show rustTrim (leadSp l) = []
    cases l with
    | nil => rfl
    | cons c cs =>
      rw [leadSp_cons]
      by_cases hc : rustWs c = true
      · rw [if_pos hc]
        show rustTrim [' '] = []
        decide
      · rw [if_neg hc]
        rfl
  · have hs := wordsOf_sound l.length l (Nat.le_refl _)
    obtain ⟨h1, t1, hJ, hh1⟩ := joinWords_head_nonws (wordsOf l) hW hs
    obtain ⟨h2, t2, hR, hh2⟩ := joinWords_reverse_head_nonws (wordsOf l) hW hs
    have hstep1 : (leadSp l ++ (joinWords (wordsOf l) ++ trailSp l)).dropWhile rustWs
        = joinWords (wordsOf l) ++ trailSp l := by
      have hcore : (joinWords (wordsOf l) ++ trailSp l).dropWhile rustWs
          = joinWords (wordsOf l) ++ trailSp l := by
        rw [hJ, List.cons_append,
          List.dropWhile_cons_of_neg (by rw [hh1]; simp)]
      cases l with
      | nil =>
        rw [show leadSp ([] : List Char) = [] from rfl, List.nil_append]
        exact hcore
      | cons c cs =>
        rw [leadSp_cons]
        by_cases hc : rustWs c = true
        · rw [if_pos hc, List.singleton_append,
            List.dropWhile_cons_of_pos (by rw [rustWs_space]), hcore]
        · rw [if_neg hc, List.nil_append, hcore]
    unfold rustTrim
    rw [hstep1]
    rcases trailSp_elem l with htr | htr
    · rw [htr, List.append_nil, hR,
        List.dropWhile_cons_of_neg (by rw [hh2]; simp), ← hR, List.reverse_reverse]
    · rw [htr, List.reverse_append, List.reverse_singleton, List.singleton_append,
        List.dropWhile_cons_of_pos (by rw [rustWs_space]), hR,
        List.dropWhile_cons_of_neg (by rw [hh2]; simp), ← hR, List.reverse_reverse]

theorem filter_nonws_collapse : ∀ (l : List Char) (b : Bool),
    (collapseChars l b).filter (fun c => !rustWs c) = l.filter (fun c => !rustWs c) := by
  intro l
  induction l with
  | nil => intro b; rfl
  | cons c cs ih =>
    intro b
    by_cases hc : rustWs c = true
    · cases b <;>
        simp [collapseChars, hc, List.filter_cons, rustWs_space, ih]
    · have hcf : rustWs c = false := Bool.eq_false_iff.mpr hc
      simp [collapseChars, hcf, List.filter_cons, ih]

theorem filter_nonws_dropWhile (l : List Char) :
    (l.dropWhile rustWs).filter (fun c => !rustWs c) = l.filter (fun c => !rustWs c) := by
  induction l with
  | nil => rfl
  | cons c cs ih =>
    by_cases hc : rustWs c = true
    · rw [List.dropWhile_cons_of_pos (by rw [hc]), ih, List.filter_cons,
        if_neg (by rw [hc]; simp)]
    · rw [List.dropWhile_cons_of_neg hc]

theorem filter_nonws_rustTrim (l : List Char) :
    (rustTrim l).filter (fun c => !rustWs c) = l.filter (fun c => !rustWs c) := by
  unfold rustTrim
  rw [List.filter_reverse, filter_nonws_dropWhile, List.filter_reverse,
    filter_nonws_dropWhile, List.reverse_reverse]

/-- Claim C8: `normalize_text` collapses every whitespace run (tabs and
newlines included) to a single space and trims the ends — the output is
exactly the input's maximal non-whitespace runs joined by single spaces
— and the non-whitespace characters pass through unchanged, in order. -/
theorem normalize_text_single_space_join (chunks : List String) :
    (normalize_text chunks).data = joinWords (wordsOf (chunkChars chunks))
    ∧ (normalize_text chunks).data.filter (fun c => !rustWs c)
        = (chunkChars chunks).filter (fun c => !rustWs c) := by
  have hdata : (normalize_text chunks).data
      = rustTrim (collapseChars (chunkChars chunks) false) := rfl
  have hchar := (collapse_characterization (chunkChars chunks).length
    (chunkChars chunks) (Nat.le_refl _)).2
  constructor
  · rw [hdata, hchar, rustTrim_pads]
  · rw [hdata, filter_nonws_rustTrim, filter_nonws_collapse]

/-! ## The fetch pipeline (src/fetch.rs)

`fetch_html` drives one Playwright page through navigation, settle wait,
content extraction and close.  The embedding passes an environment
supplying the result of every primitive browser call, in call order, and
threads a state holding the call counters and a chronological trace of
events; error strings model the eyre error/wrap_err chains.  Page ids
number the pages in creation order within one `fetch_html` run.  Close
results are only logged by the source (`close_page` swallows them), so
the environment does not carry them; likewise the settle `eval` result
is logged and dropped. -/

/-- The two `DocumentLoadState` wait conditions used by the source. -/
inductive DocumentLoadState where
  | domContentLoaded
  | load
deriving DecidableEq

/-- One observable browser-side event of a `fetch_html` run. -/
inductive Ev where
  | pageCreated (id : Nat)
  | gotoCall (page : Nat) (wait : DocumentLoadState)
  | evalCall (page : Nat)
  | contentCall (page : Nat)
  | closeAttempt (page : Nat)
deriving DecidableEq

/-- Results of the primitive browser operations, in call order:
`newPageResults k` is the result of the k-th `context.new_page()`,
`gotoResults k` of the k-th `goto`, `contentResults k` of the k-th
`page.content()`. -/
structure FetchEnv where
  newPageResults : Nat → Except String Unit
  gotoResults : Nat → Except String Unit
  contentResults : Nat → Except String String

/-- Call counters and the chronological event trace of one run. -/
structure FSt where
  pages : Nat
  gotos : Nat
  contents : Nat
  trace : List Ev

def initSt : FSt := ⟨0, 0, 0, []⟩

/-- Embedding of `is_object_not_found` (src/fetch.rs lines 19-25): the
argument is the failure's diagnostic text. -/
def is_object_not_found (e : String) : Bool :=
  strContains e "ObjectNotFound" || strContains e "TargetClosed" ||
  strContains e "Session closed" || strContains e "Browser has been closed"

/-- `self.new_page()` (src/fetch.rs lines 67-72): on success the fresh
page gets the next id; on failure no page exists and the wrapped error
propagates. -/
def doNewPage (env : FetchEnv) (s : FSt) : Except String Nat × FSt :=
  match env.newPageResults s.pages with
  | .ok _ => (.ok s.pages,
      { s with pages := s.pages + 1, trace := s.trace ++ [.pageCreated s.pages] })
  | .error e => (.error ("context.new_page failed: " ++ e), s)

/-- One `goto` navigation on page `p` with the given wait condition. -/
def doGoto (env : FetchEnv) (p : Nat) (w : DocumentLoadState) (s : FSt) :
    Except String Unit × FSt :=
  (env.gotoResults s.gotos,
    { s with gotos := s.gotos + 1, trace := s.trace ++ [.gotoCall p w] })

/-- One `page.content()` call on page `p`. -/
def doContent (env : FetchEnv) (p : Nat) (s : FSt) : Except String String × FSt :=
  (env.contentResults s.contents,
    { s with contents := s.contents + 1, trace := s.trace ++ [.contentCall p] })

/-- `close_page` (src/fetch.rs lines 85-89): one close attempt; a close
failure is only logged, so the result does not influence control flow. -/
def close_page (p : Nat) (s : FSt) : FSt :=
  { s with trace := s.trace ++ [.closeAttempt p] }

/-- The settle-delay `page.eval` (src/fetch.rs lines 127-138); its
failure is logged and ignored, so only the event is recorded. -/
def doEval (p : Nat) (s : FSt) : FSt :=
  { s with trace := s.trace ++ [.evalCall p] }

/-- The navigation retry of `fetch_html` (src/fetch.rs lines 100-124):
on an object-not-found first failure the handle is closed and replaced,
then one `Load` retry runs; otherwise the `Load` retry runs on the same
handle; a failed retry closes the handle and returns the error. -/
def navRetry (env : FetchEnv) (e : String) (p0 : Nat) (s : FSt) :
    Except String Nat × FSt :=
  if is_object_not_found e then
    let s1 := close_page p0 s
    match doNewPage env s1 with
    | (.error e2, s2) => (.error e2, s2)
    | (.ok p1, s2) =>
      match doGoto env p1 .load s2 with
      | (.ok _, s3) => (.ok p1, s3)
      | (.error e2, s3) => (.error ("goto(Load) failed: " ++ e2), close_page p1 s3)
  else
    match doGoto env p0 .load s with
    | (.ok _, s1) => (.ok p0, s1)
    | (.error e2, s1) => (.error ("goto(Load) failed: " ++ e2), close_page p0 s1)

/-- First navigation with `DomContentLoaded`, falling back to
`navRetry` on failure (src/fetch.rs lines 93-124). -/
def navPhase (env : FetchEnv) (p0 : Nat) (s : FSt) : Except String Nat × FSt :=
  match doGoto env p0 .domContentLoaded s with
  | (.ok _, s1) => (.ok p0, s1)
  | (.error e, s1) => navRetry env e p0 s1

/-- Content extraction with its object-not-found retry
(src/fetch.rs lines 140-167); returns the html and the page that is
active at the end.  Mirroring the source, the fresh page of the retry
path is not closed when the retry goto or retry content fails. -/
def contentPhase (env : FetchEnv) (p : Nat) (s : FSt) :
    Except String (Nat × String) × FSt :=
  match doContent env p s with
  | (.ok h, s1) => (.ok (p, h), s1)
  | (.error e, s1) =>
    if is_object_not_found e then
      let s2 := close_page p s1
      match doNewPage env s2 with
      | (.error e2, s3) => (.error e2, s3)
      | (.ok p1, s3) =>
        match doGoto env p1 .domContentLoaded s3 with
        | (.error eg, s4) => (.error ("retry goto(DomContentLoaded) failed: " ++ eg), s4)
        | (.ok _, s4) =>
          match doContent env p1 s4 with
          | (.ok h, s5) => (.ok (p1, h), s5)
          | (.error e2, s5) => (.error ("retry page.content failed: " ++ e2), s5)
    else
      (.error ("page.content failed: " ++ e), close_page p s1)

/-- Embedding of `fetch_html` (src/fetch.rs lines 80-179): new page,
navigation phase, settle eval, content phase, and the final close of
the page that is active on the success path. -/
def fetch_html (env : FetchEnv) : Except String String × FSt :=
  match doNewPage env initSt with
  | (.error e, s) => (.error e, s)
  | (.ok p0, s) =>
    match navPhase env p0 s with
    | (.error e, s1) => (.error e, s1)
    | (.ok p, s1) =>
      let s2 := doEval p s1
      match contentPhase env p s2 with
      | (.error e, s3) => (.error e, s3)
      | (.ok (pf, h), s3) => (.ok h, close_page pf s3)

/-- Number of close attempts recorded for page `p`. -/
def closeCount (t : List Ev) (p : Nat) : Nat :=
  (t.filter (fun ev => ev == Ev.closeAttempt p)).length

/-- Number of navigations recorded. -/
def gotoCount (t : List Ev) : Nat :=
  (t.filter (fun ev => match ev with | .gotoCall _ _ => true | _ => false)).length

/-! ## Claim C1: one close attempt per page -/

/-- Environment where the first `page.content()` fails with a
target-closed diagnostic and the retry navigation then fails. -/
def leakEnv : FetchEnv :=
  { newPageResults := fun _ => .ok ()
    gotoResults := fun n => if n == 0 then .ok () else .error "net::ERR_CONNECTION_RESET"
    contentResults := fun _ => .error "TargetClosed: target page closed" }

/-- Claim C1 fails on the content-extraction-retry path: when
`page.content()` fails with an object-not-found diagnostic, a fresh
page is created, and if the retry navigation (or retry content) then
fails, `fetch_html` returns the error without ever attempting to close
the fresh page — that handle gets zero close attempts. -/
theorem fetch_html_content_retry_leaks_page :
    Ev.pageCreated 1 ∈ (fetch_html leakEnv).2.trace
    ∧ closeCount (fetch_html leakEnv).2.trace 1 = 0
    ∧ (fetch_html leakEnv).1
        = .error ("retry goto(DomContentLoaded) failed: " ++ "net::ERR_CONNECTION_RESET") := by
  refine ⟨by decide, by decide, rfl⟩

/-! ## Claim C3: the navigation retry policy -/

/-- The content phase only ever appends to the trace. -/
theorem contentPhase_trace (env : FetchEnv) (p : Nat) (s : FSt) :
    ∃ t, (contentPhase env p s).2.trace = s.trace ++ t := by
  cases hc : env.contentResults s.contents with
  | ok h =>
    exact ⟨[.contentCall p], by simp [contentPhase, doContent, hc]⟩
  | error e =>
    by_cases hone : is_object_not_found e = true
    · cases hn : env.newPageResults s.pages with
      | error e2 =>
        exact ⟨[.contentCall p, .closeAttempt p],
          by simp [contentPhase, doContent, doNewPage, close_page, hc, hone, hn]⟩
      | ok u =>
        cases hg : env.gotoResults s.gotos with
        | error eg =>
          exact ⟨[.contentCall p, .closeAttempt p, .pageCreated s.pages,
              .gotoCall s.pages .domContentLoaded],
            by simp [contentPhase, doContent, doNewPage, doGoto, close_page,
              hc, hone, hn, hg]⟩
        | ok v =>
          cases hc2 : env.contentResults (s.contents + 1) with
          | ok h2 =>
            exact ⟨[.contentCall p, .closeAttempt p, .pageCreated s.pages,
                .gotoCall s.pages .domContentLoaded, .contentCall s.pages],
              by simp [contentPhase, doContent, doNewPage, doGoto, close_page,
                hc, hone, hn, hg, hc2]⟩
          | error e2 =>
            exact ⟨[.contentCall p, .closeAttempt p, .pageCreated s.pages,
                .gotoCall s.pages .domContentLoaded, .contentCall s.pages],
              by simp [contentPhase, doContent, doNewPage, doGoto, close_page,
                hc, hone, hn, hg, hc2]⟩
    · exact ⟨[.contentCall p, .closeAttempt p],
        by simp [contentPhase, doContent, close_page, hc, hone]⟩

/-- Claim C3: when the first navigation fails with a failure classified
as session invalidation, the current handle is closed, a fresh one is
acquired, and one `Load` retry runs on the fresh handle; on any other
first-navigation failure one `Load` retry runs on the same handle; if
that single retry fails too, the handle is closed and `fetch_html`
returns the failure having navigated exactly twice. -/
theorem fetch_html_nav_retry_policy (env : FetchEnv) (e : String)
    (h0 : env.gotoResults 0 = .error e)
    (hp0 : env.newPageResults 0 = .ok ())
    (hp1 : env.newPageResults 1 = .ok ()) :
    (is_object_not_found e = true →
      [Ev.pageCreated 0, Ev.gotoCall 0 .domContentLoaded, Ev.closeAttempt 0,
        Ev.pageCreated 1, Ev.gotoCall 1 .load] <+: (fetch_html env).2.trace)
    ∧ (is_object_not_found e = false →
      [Ev.pageCreated 0, Ev.gotoCall 0 .domContentLoaded, Ev.gotoCall 0 .load]
        <+: (fetch_html env).2.trace)
    ∧ (∀ e2, env.gotoResults 1 = .error e2 →
        (fetch_html env).1 = .error ("goto(Load) failed: " ++ e2)
        ∧ gotoCount (fetch_html env).2.trace = 2
        ∧ closeCount (fetch_html env).2.trace (if is_object_not_found e then 1 else 0) = 1) := by
  cases hone : is_object_not_found e with
  | true =>
    cases hg1 : env.gotoResults 1 with
    | ok v =>
      have hfetch : fetch_html env
          = (match contentPhase env 1 (doEval 1 ⟨2, 2, 0,
                [Ev.pageCreated 0, Ev.gotoCall 0 .domContentLoaded, Ev.closeAttempt 0,
                 Ev.pageCreated 1, Ev.gotoCall 1 .load]⟩) with
             | (.error er, s3) => (.error er, s3)
             | (.ok (pf, h), s3) => (.ok h, close_page pf s3)) := by
        simp [fetch_html, navPhase, navRetry, doNewPage, doGoto, close_page, initSt,
          h0, hp0, hp1, hone, hg1]
      obtain ⟨t, ht⟩ := contentPhase_trace env 1 (doEval 1 ⟨2, 2, 0,
        [Ev.pageCreated 0, Ev.gotoCall 0 .domContentLoaded, Ev.closeAttempt 0,
         Ev.pageCreated 1, Ev.gotoCall 1 .load]⟩)
      rcases hcp : contentPhase env 1 (doEval 1 ⟨2, 2, 0,
        [Ev.pageCreated 0, Ev.gotoCall 0 .domContentLoaded, Ev.closeAttempt 0,
         Ev.pageCreated 1, Ev.gotoCall 1 .load]⟩) with ⟨res, s7⟩
      rw [hcp] at hfetch ht
      refine ⟨?_, ?_, ?_⟩
      · intro _
        cases res with
        | error er =>
          simp only [] at hfetch
          refine ⟨Ev.evalCall 1 :: t, ?_⟩
          rw [hfetch]
          simpa [doEval, List.append_assoc] using ht.symm
        | ok ph =>
          obtain ⟨pf, hh⟩ := ph
          simp only [] at hfetch
          have hts : s7.trace = (doEval 1 (⟨2, 2, 0,
              [Ev.pageCreated 0, Ev.gotoCall 0 .domContentLoaded, Ev.closeAttempt 0,
               Ev.pageCreated 1, Ev.gotoCall 1 .load]⟩ : FSt)).trace ++ t := ht
          refine ⟨Ev.evalCall 1 :: (t ++ [Ev.closeAttempt pf]), ?_⟩
          rw [hfetch]
          simp only [close_page, hts]
          simp [doEval, List.append_assoc]
      · intro h
        simp at h
      · intro e2 he2
        simp at he2
    | error e2 =>
      have hfetch : fetch_html env
          = (.error ("goto(Load) failed: " ++ e2),
             ⟨2, 2, 0, [Ev.pageCreated 0, Ev.gotoCall 0 .domContentLoaded, Ev.closeAttempt 0,
               Ev.pageCreated 1, Ev.gotoCall 1 .load, Ev.closeAttempt 1]⟩) := by
        simp [fetch_html, navPhase, navRetry, doNewPage, doGoto, close_page, initSt,
          h0, hp0, hp1, hone, hg1]
      refine ⟨?_, ?_, ?_⟩
      · intro _
        rw [hfetch]
        exact ⟨[Ev.closeAttempt 1], rfl⟩
      · intro h
        simp at h
      · intro e2x he2
        injection he2 with heq
        subst heq
        rw [hfetch]
        refine ⟨rfl, ?_, ?_⟩
        · show gotoCount [Ev.pageCreated 0, Ev.gotoCall 0 .domContentLoaded,
            Ev.closeAttempt 0, Ev.pageCreated 1, Ev.gotoCall 1 .load,
            Ev.closeAttempt 1] = 2
          decide
        · show closeCount [Ev.pageCreated 0, Ev.gotoCall 0 .domContentLoaded,
            Ev.closeAttempt 0, Ev.pageCreated 1, Ev.gotoCall 1 .load,
            Ev.closeAttempt 1] (if true = true then 1 else 0) = 1
          decide
  | false =>
    have honef : ¬ is_object_not_found e = true := by
      rw [hone]
      simp
    cases hg1 : env.gotoResults 1 with
    | ok v =>
      have hfetch : fetch_html env
          = (match contentPhase env 0 (doEval 0 ⟨1, 2, 0,
                [Ev.pageCreated 0, Ev.gotoCall 0 .domContentLoaded, Ev.gotoCall 0 .load]⟩) with
             | (.error er, s3) => (.error er, s3)
             | (.ok (pf, h), s3) => (.ok h, close_page pf s3)) := by
        simp [fetch_html, navPhase, navRetry, doNewPage, doGoto, close_page, initSt,
          h0, hp0, honef, hg1]
      obtain ⟨t, ht⟩ := contentPhase_trace env 0 (doEval 0 ⟨1, 2, 0,
        [Ev.pageCreated 0, Ev.gotoCall 0 .domContentLoaded, Ev.gotoCall 0 .load]⟩)
      rcases hcp : contentPhase env 0 (doEval 0 ⟨1, 2, 0,
        [Ev.pageCreated 0, Ev.gotoCall 0 .domContentLoaded, Ev.gotoCall 0 .load]⟩)
        with ⟨res, s7⟩
      rw [hcp] at hfetch ht
      refine ⟨?_, ?_, ?_⟩
      · intro h
        simp at h
      · intro _
        cases res with
        | error er =>
          simp only [] at hfetch
          refine ⟨Ev.evalCall 0 :: t, ?_⟩
          rw [hfetch]
          simpa [doEval, List.append_assoc] using ht.symm
        | ok ph =>
          obtain ⟨pf, hh⟩ := ph
          simp only [] at hfetch
          have hts : s7.trace = (doEval 0 (⟨1, 2, 0,
              [Ev.pageCreated 0, Ev.gotoCall 0 .domContentLoaded, Ev.gotoCall 0 .load]⟩
                : FSt)).trace ++ t := ht
          refine ⟨Ev.evalCall 0 :: (t ++ [Ev.closeAttempt pf]), ?_⟩
          rw [hfetch]
          simp only [close_page, hts]
          simp [doEval, List.append_assoc]
      · intro e2 he2
        simp at he2
    | error e2 =>
      have hfetch : fetch_html env
          = (.error ("goto(Load) failed: " ++ e2),
             ⟨1, 2, 0, [Ev.pageCreated 0, Ev.gotoCall 0 .domContentLoaded,
               Ev.gotoCall 0 .load, Ev.closeAttempt 0]⟩) := by
        simp [fetch_html, navPhase, navRetry, doNewPage, doGoto, close_page, initSt,
          h0, hp0, honef, hg1]
      refine ⟨?_, ?_, ?_⟩
      · intro h
        simp at h
      · intro _
        rw [hfetch]
        exact ⟨[Ev.closeAttempt 0], rfl⟩
      · intro e2x he2
        injection he2 with heq
        subst heq
        rw [hfetch]
        refine ⟨rfl, ?_, ?_⟩
        · show gotoCount [Ev.pageCreated 0, Ev.gotoCall 0 .domContentLoaded,
            Ev.gotoCall 0 .load, Ev.closeAttempt 0] = 2
          decide
        · show closeCount [Ev.pageCreated 0, Ev.gotoCall 0 .domContentLoaded,
            Ev.gotoCall 0 .load, Ev.closeAttempt 0] (if false = true then 1 else 0) = 1
          decide

/-- Environment with a target-closed first navigation failure and a
generic retry failure. -/
def navRetryEnvW : FetchEnv :=
  { newPageResults := fun _ => .ok ()
    gotoResults := fun n =>
      if n == 0 then .error "TargetClosed: target crashed" else .error "net::ERR_EMPTY_RESPONSE"
    contentResults := fun _ => .ok "<html></html>" }

theorem fetch_html_nav_retry_policy_witness :
    navRetryEnvW.gotoResults 0 = .error "TargetClosed: target crashed"
    ∧ (fetch_html navRetryEnvW).1
        = .error ("goto(Load) failed: " ++ "net::ERR_EMPTY_RESPONSE") :=
  ⟨rfl, ((fetch_html_nav_retry_policy navRetryEnvW "TargetClosed: target crashed"
      rfl rfl rfl).2.2 "net::ERR_EMPTY_RESPONSE" rfl).1⟩

/-! ## The orchestrator `fetch_all_html` (src/fetch.rs lines 187-269)

The batch environment supplies the `HtmlFetcher::new()` outcome, one
`FetchEnv` per input index, which URLs hit the 45-second timeout, and
the completion order in which `buffer_unordered` delivers the results
(a permutation of the input indices). -/

structure BatchEnv where
  newFetcher : Except String Unit
  perUrlEnv : Nat → FetchEnv
  timedOut : Nat → Bool
  order : List Nat

/-- The result recorded for the i-th URL: the timeout branch's error,
or the underlying `fetch_html` result. -/
def urlResult (env : BatchEnv) (i : Nat) : Except String String :=
  if env.timedOut i then .error "timeout after 45s"
  else (fetch_html (env.perUrlEnv i)).1

/-- Embedding of `fetch_all_html`: construct the single fetcher (its
failure aborts the whole call), then collect one `(url, result)` pair
per stream item, in completion order. -/
def fetch_all_html (env : BatchEnv) (urls : List String) :
    Except String (List (String × Except String String)) :=
  match env.newFetcher with
  | .error e => .error e
  | .ok _ => .ok (env.order.filterMap (fun i => (urls[i]?).map (fun u => (u, urlResult env i))))

theorem filterMap_getElem_range (l : List String) :
    (List.range l.length).filterMap (fun i => l[i]?) = l := by
  induction l with
  | nil => rfl
  | cons x xs ih =>
    rw [List.length_cons, List.range_succ_eq_map, List.filterMap_cons]
    simp only [List.getElem?_cons_zero, List.filterMap_map]
    rw [show ((fun i => (x :: xs)[i]?) ∘ Nat.succ) = fun i => xs[i]? from ?_]
    · rw [ih]
    · funext i
      simp

/-- Claim C2: given Browser Session construction succeeds,
`fetch_all_html` returns `Ok` with exactly one `(url, outcome)` pair per
input URL, whatever the individual fetch results and timeouts are; the
whole call returns an error exactly when fetcher construction fails. -/
theorem fetch_all_html_one_outcome_per_url (env : BatchEnv) (urls : List String)
    (hord : env.order.Perm (List.range urls.length)) :
    (env.newFetcher = .ok () →
      ∃ out, fetch_all_html env urls = .ok out
        ∧ out.length = urls.length
        ∧ (out.map Prod.fst).Perm urls)
    ∧ (∀ e, env.newFetcher = .error e → fetch_all_html env urls = .error e) := by
  constructor
  · intro hnew
    refine ⟨env.order.filterMap (fun i => (urls[i]?).map (fun u => (u, urlResult env i))),
      ?_, ?_, ?_⟩
    · rw [fetch_all_html, hnew]
    · have hmap : (env.order.filterMap
          (fun i => (urls[i]?).map (fun u => (u, urlResult env i)))).map Prod.fst
          = env.order.filterMap (fun i => urls[i]?) := by
        rw [List.map_filterMap]
        refine List.filterMap_congr ?_
        intro i _
        cases urls[i]? <;> simp
      have hperm : (env.order.filterMap (fun i => urls[i]?)).Perm urls := by
        have h1 := hord.filterMap (fun i => urls[i]?)
        rw [filterMap_getElem_range] at h1
        exact h1
      have hlen : (env.order.filterMap
          (fun i => (urls[i]?).map (fun u => (u, urlResult env i)))).length
          = urls.length := by
        have := congrArg List.length hmap
        rw [List.length_map] at this
        rw [this, hperm.length_eq]
      exact hlen
    · have hmap : (env.order.filterMap
          (fun i => (urls[i]?).map (fun u => (u, urlResult env i)))).map Prod.fst
          = env.order.filterMap (fun i => urls[i]?) := by
        rw [List.map_filterMap]
        refine List.filterMap_congr ?_
        intro i _
        cases urls[i]? <;> simp
      rw [hmap]
      have h1 := hord.filterMap (fun i => urls[i]?)
      rw [filterMap_getElem_range] at h1
      exact h1
  · intro e hnew
    rw [fetch_all_html, hnew]

/-- All-success fetch environment used for witnesses. -/
def okFetchEnv (html : String) : FetchEnv :=
  { newPageResults := fun _ => .ok ()
    gotoResults := fun _ => .ok ()
    contentResults := fun _ => .ok html }

/-- Batch with one healthy URL and one whose every navigation fails. -/
def batchEnvW : BatchEnv :=
  { newFetcher := .ok ()
    perUrlEnv := fun i =>
      if i == 0 then okFetchEnv "<html>alpha</html>"
      else
        { newPageResults := fun _ => .ok ()
          gotoResults := fun _ => .error "net::ERR_NAME_NOT_RESOLVED"
          contentResults := fun _ => .ok "unreachable" }
    timedOut := fun _ => false
    order := [1, 0] }

def urlsW : List String := ["http://alpha.example/", "http://beta.example/"]

theorem fetch_all_html_one_outcome_per_url_witness :
    List.Perm batchEnvW.order (List.range urlsW.length)
    ∧ ∃ out, fetch_all_html batchEnvW urlsW = .ok out
        ∧ out.length = urlsW.length
        ∧ (out.map Prod.fst).Perm urlsW :=
  ⟨by decide,
    (fetch_all_html_one_outcome_per_url batchEnvW urlsW (by decide)).1 rfl⟩

/-! ## Claim C5: new_page failure is a per-URL outcome, not a batch abort -/

/-- Batch where the first URL's `context.new_page()` fails because the
browsing context is gone, and the second URL is healthy. -/
def c5Env : BatchEnv :=
  { newFetcher := .ok ()
    perUrlEnv := fun i =>
      if i == 0 then
        { newPageResults := fun _ => .error "browsing context has been discarded"
          gotoResults := fun _ => .ok ()
          contentResults := fun _ => .ok "unused" }
      else okFetchEnv "<html>live</html>"
    timedOut := fun _ => false
    order := [0, 1] }

def c5Urls : List String := ["http://dead.example/", "http://live.example/"]

/-- Claim C5 is false on the code: a `new_page` failure does not abort
the run — `fetch_all_html` still returns `Ok`, records the failure as
that URL's outcome, and the other URL completes normally. -/
theorem new_page_failure_not_fatal_counterexample :
    fetch_all_html c5Env c5Urls =
      .ok [("http://dead.example/",
            .error ("context.new_page failed: " ++ "browsing context has been discarded")),
           ("http://live.example/", .ok "<html>live</html>")] := by
  rfl

theorem fetch_html_newpage_error (env : FetchEnv) (e : String)
    (h : env.newPageResults 0 = .error e) :
    (fetch_html env).1 = .error ("context.new_page failed: " ++ e) := by
  simp [fetch_html, doNewPage, initSt, h]

/-- Claim C5 amended: when acquiring a new page fails, the failure
propagates out of that URL's `fetch_html` and is recorded as a per-URL
failure outcome; the batch call itself still returns `Ok` (only Browser
Session construction failure aborts the entire call). -/
theorem new_page_failure_per_url_outcome (env : BatchEnv) (urls : List String)
    (i : Nat) (e : String)
    (hnew : env.newFetcher = .ok ())
    (hord : env.order.Perm (List.range urls.length))
    (hi : i < urls.length)
    (ht : env.timedOut i = false)
    (hp : (env.perUrlEnv i).newPageResults 0 = .error e) :
    ∃ out, fetch_all_html env urls = .ok out
      ∧ (urls.get ⟨i, hi⟩,
         Except.error ("context.new_page failed: " ++ e)) ∈ out := by
  refine ⟨_, by rw [fetch_all_html, hnew], ?_⟩
  rw [List.mem_filterMap]
  refine ⟨i, hord.mem_iff.mpr (List.mem_range.mpr hi), ?_⟩
  have hres : urlResult env i = .error ("context.new_page failed: " ++ e) := by
    rw [urlResult, if_neg (by rw [ht]; simp),
      fetch_html_newpage_error (env.perUrlEnv i) e hp]
  rw [List.getElem?_eq_getElem hi]
  simp [hres]

theorem new_page_failure_per_url_outcome_witness :
    c5Env.newFetcher = .ok ()
    ∧ (c5Env.perUrlEnv 0).newPageResults 0
        = .error "browsing context has been discarded"
    ∧ ∃ out, fetch_all_html c5Env c5Urls = .ok out
        ∧ (c5Urls.get ⟨0, by decide⟩,
           Except.error ("context.new_page failed: "
             ++ "browsing context has been discarded")) ∈ out :=
  ⟨rfl, rfl,
    new_page_failure_per_url_outcome c5Env c5Urls 0 "browsing context has been discarded"
      rfl (by decide) (by decide) rfl rfl⟩

end Slurpsearch
